import Mathlib

/-!
Shallow embedding of the conniebot message pipeline (src/src/conniebot.ts,
current version) and of the embed formatting helper (src/embed/embed.js).
JavaScript strings are modelled as lists of characters; the side effects a
handler performs (sends, reactions, persistence operations, logging, process
exit) are modelled as an explicit trace of effects, in program order.
-/

namespace ConniebotModel

/-- JavaScript strings, modelled as lists of characters. -/
abbrev Str := List Char

/-- Association list modelling the reply table of the database helper:
message id mapped to the origin author id.  Modelled from the spec: the
db-management helper is not part of the given sources; the spec describes a
key/record store with lookup by message, insert, and delete. -/
abbrev DBMap := List (Str × Str)

/-- Membership of a character in the JavaScript regular-expression class
backslash-s (whitespace), as defined by ECMA-262. -/
def jsWhitespaceChar (c : Char) : Bool :=
  c == ' ' || c == Char.ofNat 9 || c == Char.ofNat 10 || c == Char.ofNat 13 ||
  c == Char.ofNat 11 || c == Char.ofNat 12 || c == Char.ofNat 0xa0 ||
  c == Char.ofNat 0x1680 || (0x2000 ≤ c.toNat && c.toNat ≤ 0x200a) ||
  c == Char.ofNat 0x2028 || c == Char.ofNat 0x2029 || c == Char.ofNat 0x202f ||
  c == Char.ofNat 0x205f || c == Char.ofNat 0x3000 || c == Char.ofNat 0xfeff

/-- Membership in the class backslash-S (non-whitespace). -/
def jsNonSpace (c : Char) : Bool := !jsWhitespaceChar c

/-- Characters matched by the dot in a JavaScript pattern without the s flag:
anything except a line terminator. -/
def jsDotChar (c : Char) : Bool :=
  !(c == Char.ofNat 10 || c == Char.ofNat 13 || c == Char.ofNat 0x2028 ||
    c == Char.ofNat 0x2029)

/-- JavaScript split on a single space: s.split(" ").  Splitting the empty
string yields a one-element list holding the empty string. -/
def splitOnSpace : Str → List Str
  | [] => [[]]
  | c :: rest =>
    match splitOnSpace rest with
    | [] => [[]]
    | t :: ts => if c = ' ' then [] :: t :: ts else (c :: t) :: ts

/-- A reply part sent to the channel: either plain text or a structured
message built from a template. -/
inductive Part where
  | text (s : Str)
  | embedded
deriving DecidableEq, Repr

/-- One observable side effect of a handler, in program order. -/
inductive Effect where
  | send (p : Part)
  | react (emoji : Str)
  | addReplyRecord (originId authorId : Str)
  | logX2i (success : Bool)
  | invokeCommand (name : Str) (args : List Str)
  | logCommand (name : Str) (success : Bool)
  | deleteTransport (msgId : Str)
  | deleteRecord (msgId : Str)
  | logWarn
  | logError
  | addErrorRecord
  | exitProcess (code : Nat)
deriving DecidableEq, Repr

/-- The ellipsis marker appended to a truncated reply. -/
def ellipsisChar : Char := '…'

/-- Response parts chosen by x2iExec once the search produced a result:
results.length greater than the configured timeoutChars gives the truncated
prefix plus ellipsis followed by the rendered timeout message, otherwise the
single full text. -/
def x2iResponses (results : Str) (timeoutChars : Nat) (tm : Part) : List Part :=
  if timeoutChars < results.length then
    [Part.text (results.take timeoutChars ++ [ellipsisChar]), tm]
  else
    [Part.text results]

/-- Trace and updated database of x2iExec together with its returned parsed
flag.  The parsed flag is the truthiness of the joined search results; when
set, each response part is sent and reaction-tagged with the delete emoji,
then the reply record is persisted and a success line is logged. -/
def x2iExec (results : Str) (timeoutChars : Nat) (deleteEmoji : Str) (tm : Part)
    (originId authorId : Str) (db : DBMap) : List Effect × DBMap × Bool :=
  if results = [] then ([], db, false)
  else
    (((x2iResponses results timeoutChars tm).flatMap
        fun r => [Effect.send r, Effect.react deleteEmoji]) ++
      [Effect.addReplyRecord originId authorId, Effect.logX2i true],
     (originId, authorId) :: db, true)

/-- Reply parts actually sent within a trace. -/
def sentParts (fx : List Effect) : List Part :=
  fx.filterMap fun e =>
    match e with
    | Effect.send p => some p
    | _ => none

/-- Command token captured by the anchored matcher: the maximal run of
non-whitespace characters after the literal prefix. -/
def cmdTokenOf (pfx content : Str) : Str :=
  (content.drop pfx.length).takeWhile jsNonSpace

/-- Argument text captured by the matcher: after the command token an
optional single space is consumed, then the dot-star group takes everything
up to a line terminator. -/
def argTextOf (pfx content : Str) : Str :=
  let rem := (content.drop pfx.length).dropWhile jsNonSpace
  (if rem.head? = some ' ' then rem.tail else rem).takeWhile jsDotChar

/-- Matching of message content against the command pattern built from the
escaped prefix: anchored at the start, capturing the non-whitespace command
token and the argument text. -/
def route (pfx content : Str) : Option (Str × Str) :=
  if pfx.isPrefixOf content then some (cmdTokenOf pfx content, argTextOf pfx content)
  else none

/-- Trace of the command method: no match or an unregistered token falls
through silently; a registered token invokes exactly that handler with the
argument text split on single spaces, then logs the outcome. -/
def command (pfx content : Str) (registered : List Str) (handlerOk : Bool) :
    List Effect :=
  match route pfx content with
  | none => []
  | some (cmd, args) =>
    if cmd ∈ registered then
      [Effect.invokeCommand cmd (splitOnSpace args),
       Effect.logCommand cmd handlerOk]
    else []

/-- Trace and updated database of the parse method: bot authors are ignored,
then x2iExec runs to completion and, only when its parsed flag is false, the
command router runs. -/
def parse (authorIsBot : Bool) (results content originId authorId : Str)
    (handlerOk : Bool) (pfx deleteEmoji : Str) (timeoutChars : Nat) (tm : Part)
    (db : DBMap) (registered : List Str) : List Effect × DBMap :=
  if authorIsBot then ([], db)
  else
    let r := x2iExec results timeoutChars deleteEmoji tm originId authorId db
    if r.2.2 then (r.1, r.2.1)
    else (r.1 ++ command pfx content registered handlerOk, r.2.1)

/-- Lookup of the origin author recorded for a message id.  Modelled from the
spec: getMessageAuthor of the db-management helper returns the persisted
origin author id, or nothing when no record exists. -/
def dbLookup (db : DBMap) (msgId : Str) : Option Str :=
  (db.find? fun p => p.1 = msgId).map fun p => p.2

/-- Removal of the record for a message id.  Modelled from the spec:
deleteMessage of the db-management helper deletes the reply record. -/
def dbErase (db : DBMap) (msgId : Str) : DBMap :=
  db.filter fun p => ¬ p.1 = msgId

/-- Trace and updated database of reactDeleteMessage: the handler returns
early unless the reacting user differs from the bot, equals the persisted
origin author, and used the configured delete emoji; otherwise it deletes the
message from the transport and then the record from the database. -/
def reactDeleteMessage (botId : Option Str) (deleteEmoji : Str) (db : DBMap)
    (msgId userId emojiName : Str) : List Effect × DBMap :=
  if some userId = botId ∨ ¬ dbLookup db msgId = some userId ∨
      ¬ emojiName = deleteEmoji then ([], db)
  else ([Effect.deleteTransport msgId, Effect.deleteRecord msgId],
        dbErase db msgId)

/-- An event delivered by the transport client. -/
inductive Event where
  | message (authorIsBot : Bool) (content results originId authorId : Str)
      (handlerOk : Bool)
  | reaction (msgId userId emojiName : Str)
deriving DecidableEq, Repr

/-- Dispatch of the registered client listeners: both the message listener
and the reaction listener consult the ready flag first and do nothing while
it is false. -/
def handleEvent (ready : Bool) (pfx deleteEmoji : Str) (timeoutChars : Nat)
    (tm : Part) (botId : Option Str) (registered : List Str) (db : DBMap) :
    Event → List Effect × DBMap
  | Event.message authorIsBot content results originId authorId handlerOk =>
    if ready then
      parse authorIsBot results content originId authorId handlerOk
        pfx deleteEmoji timeoutChars tm db registered
    else ([], db)
  | Event.reaction msgId userId emojiName =>
    if ready then reactDeleteMessage botId deleteEmoji db msgId userId emojiName
    else ([], db)

/-- The connection-reset marker looked for in the error message. -/
def econnresetStr : Str := "ECONNRESET".toList

/-- JavaScript String.prototype.includes: the needle occurs as a contiguous
substring of the haystack. -/
def strIncludes (needle : Str) : Str → Bool
  | [] => needle.isEmpty
  | c :: rest => needle.isPrefixOf (c :: rest) || strIncludes needle rest

/-- Trace of panicResponsibly with its default exit argument: log the error,
persist one error record, then exit the process with status one. -/
def panicResponsibly : List Effect :=
  [Effect.logError, Effect.addErrorRecord, Effect.exitProcess 1]

/-- Guard of the error listener: a truthy error with a truthy message that
contains ECONNRESET. -/
def isConnReset (err : Option Str) : Bool :=
  match err with
  | some m => !m.isEmpty && strIncludes econnresetStr m
  | none => false

/-- Trace of the error listener: connection resets are only logged as a
warning, anything else goes through panicResponsibly. -/
def onErrorEvent (err : Option Str) : List Effect :=
  match err with
  | some m =>
    if !m.isEmpty && strIncludes econnresetStr m then [Effect.logWarn]
    else panicResponsibly
  | none => panicResponsibly

/-- Number of error records written by a trace. -/
def countErrorRecords (fx : List Effect) : Nat :=
  (fx.filter fun e => e = Effect.addErrorRecord).length

/-- Effects that belong to the command-routing stage. -/
def isCommandEffect : Effect → Bool
  | Effect.invokeCommand _ _ => true
  | Effect.logCommand _ _ => true
  | _ => false

end ConniebotModel

namespace EmbedFmt

open ConniebotModel (Str)

/-- A structured message as consumed by embed.js: an optional title, an
optional description, and an optional array of named fields. -/
structure EmbedMsg where
  title : Option Str
  description : Option Str
  fields : Option (List (Str × Str))
deriving DecidableEq, Repr

/-- A value handed to channel.send: the structured message itself or a plain
string. -/
inductive Sent where
  | embed (m : EmbedMsg)
  | plain (s : Str)
deriving DecidableEq, Repr

/-- Markdown bold wrapping used by embed.js. -/
def bold (s : Str) : Str := '*' :: '*' :: s ++ ['*', '*']

/-- A single line break. -/
def nl : Str := ['\n']

/-- The blank-line separator used by the join in handleBody. -/
def nl2 : Str := ['\n', '\n']

/-- JavaScript truthiness of an optional string: present and non-empty. -/
def jsTruthyStr : Option Str → Bool
  | none => false
  | some s => !s.isEmpty

/-- The fields iterated by handleBody: an absent fields property yields no
iterations. -/
def jsFields (m : EmbedMsg) : List (Str × Str) :=
  m.fields.getD []

/-- Body text collected by handleBody: one entry per field, pushed in order,
each prefixed by a bold header line when headers are important, then joined
with blank lines. -/
def handleBody (m : EmbedMsg) (headersImportant : Bool) : Str :=
  let body := (jsFields m).foldl
    (fun acc f =>
      acc ++ [(if headersImportant then bold f.1 ++ nl else []) ++ f.2]) []
  List.intercalate nl2 body

/-- Plain-text degradation performed by strip: the bold title with a line
break when the title is truthy, the description with a line break when
truthy, one further line break, then the body. -/
def strip (m : EmbedMsg) (headersImportant : Bool) : Str :=
  (if jsTruthyStr m.title then bold (m.title.getD []) ++ nl else []) ++
  (if jsTruthyStr m.description then (m.description.getD []) ++ nl else []) ++
  nl ++ handleBody m headersImportant

/-- Output selection: with the embeds-active configuration flag on the
structured message passes through unchanged, otherwise it is stripped. -/
def output (embedsActive : Bool) (m : EmbedMsg) (headersImportant : Bool) :
    Sent :=
  if embedsActive then Sent.embed m else Sent.plain (strip m headersImportant)

/-- Rendering as the claim words it: the bold title when present, the
description when present, and the field bodies, as parts separated by blank
lines.  This definition follows the claim text, for comparison with the
rendering the source performs. -/
def stripClaimed (m : EmbedMsg) (headersImportant : Bool) : Str :=
  List.intercalate nl2
    ((if jsTruthyStr m.title then [bold (m.title.getD [])] else []) ++
     (if jsTruthyStr m.description then [m.description.getD []] else []) ++
     (jsFields m).map
       fun f => (if headersImportant then bold f.1 ++ nl else []) ++ f.2)

/-- Rendering as the amended claim words it: the bold title terminated by a
line break when present, then the description terminated by a line break when
present, then one blank-line separator, then the field bodies, each
optionally preceded by a bold header line, joined by blank lines. -/
def stripAmended (m : EmbedMsg) (headersImportant : Bool) : Str :=
  (if jsTruthyStr m.title then bold (m.title.getD []) ++ nl else []) ++
  (if jsTruthyStr m.description then (m.description.getD []) ++ nl else []) ++
  nl ++
  List.intercalate nl2
    ((jsFields m).map
      fun f => (if headersImportant then bold f.1 ++ nl else []) ++ f.2)

end EmbedFmt

namespace ConniebotModel

theorem isPrefixOf_append_self (l r : Str) : l.isPrefixOf (l ++ r) = true := by
  induction l with
  | nil => simp [List.isPrefixOf]
  | cons a as ih => simp [List.isPrefixOf, ih]

theorem take_isPrefixOf (n : Nat) (l : Str) : (l.take n).isPrefixOf l = true := by
  induction l generalizing n with
  | nil => cases n <;> rfl
  | cons a as ih =>
    cases n with
    | zero => rfl
    | succ k => simp [List.take, List.isPrefixOf, ih]

theorem sentParts_x2iTrace (rs : List Part) (de o a : Str) :
    sentParts ((rs.flatMap fun r => [Effect.send r, Effect.react de]) ++
      [Effect.addReplyRecord o a, Effect.logX2i true]) = rs := by
  induction rs with
  | nil => rfl
  | cons p ps ih =>
    simpa [sentParts, List.filterMap_append, List.filterMap_cons] using ih

theorem isCommandEffect_sendReact (rs : List Part) (de : Str) :
    ∀ e ∈ (rs.flatMap fun r => [Effect.send r, Effect.react de]),
      isCommandEffect e = false := by
  intro e he
  simp only [List.mem_flatMap, List.mem_cons, List.not_mem_nil, or_false] at he
  obtain ⟨r, _, hr | hr⟩ := he <;> subst hr <;> rfl

theorem dbLookup_dbErase (db : DBMap) (m : Str) :
    dbLookup (dbErase db m) m = none := by
  induction db with
  | nil => rfl
  | cons p ps ih =>
    by_cases h : p.1 = m
    · have hstep : dbErase (p :: ps) m = dbErase ps m := by
        simp [dbErase, List.filter_cons, h]
      rw [hstep]; exact ih
    · have hstep : dbErase (p :: ps) m = p :: dbErase ps m := by
        simp [dbErase, List.filter_cons, h]
      rw [hstep]
      have hskip : dbLookup (p :: dbErase ps m) m = dbLookup (dbErase ps m) m := by
        simp [dbLookup, List.find?_cons, h]
      rw [hskip]; exact ih

end ConniebotModel

namespace EmbedFmt

theorem foldl_append_singleton {α : Type} (g : α → ConniebotModel.Str) :
    ∀ (l : List α) (acc : List ConniebotModel.Str),
      l.foldl (fun a x => a ++ [g x]) acc = acc ++ l.map g := by
  intro l
  induction l with
  | nil => intro acc; simp
  | cons x xs ih => intro acc; simp [ih]

end EmbedFmt

namespace ConniebotModel

/-- C1 counterexample: an empty rendered text has length at most the
configured limit, yet x2iExec sends no part at all rather than exactly one
part equal to the full text. -/
theorem c1_truncation_counterexample :
    List.length ([] : Str) ≤ 5 ∧
    sentParts (x2iExec ([] : Str) 5 "E".toList Part.embedded
      "O".toList "A".toList []).1 = [] ∧
    ¬ sentParts (x2iExec ([] : Str) 5 "E".toList Part.embedded
      "O".toList "A".toList []).1 = [Part.text ([] : Str)] := by
  decide

/-- C1 amended: for rendered text longer than the limit L, x2iExec sends
exactly two parts, the first being a prefix of exactly L characters followed
by the ellipsis marker and the second the rendered timeout message; for
non-empty rendered text of length at most L it sends exactly one part equal
to the full text; empty rendered text is treated as no transformation output
and nothing is sent. -/
theorem c1_truncation_amended (results : Str) (L : Nat) (de : Str) (tm : Part)
    (o a : Str) (db : DBMap) :
    (L < results.length →
      sentParts (x2iExec results L de tm o a db).1 =
        [Part.text (results.take L ++ [ellipsisChar]), tm] ∧
      (results.take L).length = L ∧
      (results.take L).isPrefixOf results = true) ∧
    (results ≠ [] → results.length ≤ L →
      sentParts (x2iExec results L de tm o a db).1 = [Part.text results]) ∧
    (results = [] → sentParts (x2iExec results L de tm o a db).1 = []) := by
  refine ⟨?_, ?_, ?_⟩
  · intro hL
    have hne : results ≠ [] := by
      rintro rfl
      exact absurd hL (Nat.not_lt_zero L)
    simp only [x2iExec, if_neg hne]
    rw [sentParts_x2iTrace]
    simp only [x2iResponses, if_pos hL]
    refine ⟨trivial, ?_, take_isPrefixOf L results⟩
    rw [List.length_take]
    exact Nat.min_eq_left (Nat.le_of_lt hL)
  · intro hne hle
    simp only [x2iExec, if_neg hne]
    rw [sentParts_x2iTrace]
    simp only [x2iResponses, if_neg (Nat.not_lt.mpr hle)]
  · intro h
    subst h
    rfl

/-- C1 witness: concrete truncation at limit five for a seven-character
result, and a full send for a two-character result. -/
theorem c1_truncation_witness :
    sentParts (x2iExec "abcdefg".toList 5 "E".toList Part.embedded
      "O".toList "A".toList []).1 =
      [Part.text ("abcde".toList ++ [ellipsisChar]), Part.embedded] ∧
    sentParts (x2iExec "ab".toList 5 "E".toList Part.embedded
      "O".toList "A".toList []).1 = [Part.text "ab".toList] := by
  constructor
  · exact ((c1_truncation_amended "abcdefg".toList 5 "E".toList Part.embedded
      "O".toList "A".toList []).1 (by decide)).1.trans (by decide)
  · exact (c1_truncation_amended "ab".toList 5 "E".toList Part.embedded
      "O".toList "A".toList []).2.1 (by decide) (by decide)

/-- C2: the deletion trace of reactDeleteMessage is non-empty exactly when
the reacting user is not the bot, equals the persisted origin author, and
used the configured delete emoji; an absent record is a silent no-op leaving
the database unchanged; after a completed deletion the identical reaction is
a silent no-op with no further deletion attempt. -/
theorem c2_delete_guards (botId : Option Str) (de : Str) (db : DBMap)
    (m u e : Str) :
    ((reactDeleteMessage botId de db m u e).1 ≠ [] ↔
      (¬ some u = botId ∧ dbLookup db m = some u ∧ e = de)) ∧
    (dbLookup db m = none → reactDeleteMessage botId de db m u e = ([], db)) ∧
    ((reactDeleteMessage botId de db m u e).1 ≠ [] →
      reactDeleteMessage botId de (reactDeleteMessage botId de db m u e).2
        m u e = ([], (reactDeleteMessage botId de db m u e).2)) := by
  refine ⟨?_, ?_, ?_⟩
  · by_cases hg : some u = botId ∨ ¬ dbLookup db m = some u ∨ ¬ e = de
    · simp only [reactDeleteMessage, if_pos hg]
      simp only [ne_eq, not_true_eq_false, false_iff]
      tauto
    · simp only [reactDeleteMessage, if_neg hg]
      simp only [ne_eq, List.cons_ne_nil, not_false_eq_true, true_iff]
      tauto
  · intro hnone
    have hg : some u = botId ∨ ¬ dbLookup db m = some u ∨ ¬ e = de := by
      refine Or.inr (Or.inl ?_)
      rw [hnone]
      exact fun h => Option.noConfusion h
    simp only [reactDeleteMessage, if_pos hg]
  · intro hne
    by_cases hg : some u = botId ∨ ¬ dbLookup db m = some u ∨ ¬ e = de
    · exact absurd (by simp only [reactDeleteMessage, if_pos hg]) hne
    · have hstate : (reactDeleteMessage botId de db m u e).2 = dbErase db m := by
        simp only [reactDeleteMessage, if_neg hg]
      rw [hstate]
      have hg2 : some u = botId ∨ ¬ dbLookup (dbErase db m) m = some u ∨
          ¬ e = de := by
        refine Or.inr (Or.inl ?_)
        rw [dbLookup_dbErase db m]
        exact fun h => Option.noConfusion h
      simp only [reactDeleteMessage, if_pos hg2]

/-- C2 witness: a matching reaction deletes once; replaying the identical
reaction against the resulting state does nothing, and an absent record is a
no-op. -/
theorem c2_delete_guards_witness :
    reactDeleteMessage (some "B".toList) "E".toList
      ((reactDeleteMessage (some "B".toList) "E".toList
        [("M".toList, "U".toList)] "M".toList "U".toList "E".toList).2)
      "M".toList "U".toList "E".toList =
      ([], (reactDeleteMessage (some "B".toList) "E".toList
        [("M".toList, "U".toList)] "M".toList "U".toList "E".toList).2) ∧
    reactDeleteMessage (some "B".toList) "E".toList []
      "M".toList "U".toList "E".toList = ([], []) := by
  constructor
  · exact (c2_delete_guards (some "B".toList) "E".toList
      [("M".toList, "U".toList)] "M".toList "U".toList "E".toList).2.2
      (by decide)
  · exact (c2_delete_guards (some "B".toList) "E".toList []
      "M".toList "U".toList "E".toList).2.1 (by decide)

/-- C7: when all three guards hold, the trace of reactDeleteMessage is the
transport deletion followed by the record deletion, so transport deletion
strictly precedes record deletion. -/
theorem c7_delete_order (botId : Option Str) (de : Str) (db : DBMap)
    (m u e : Str) (hbot : ¬ some u = botId) (hauth : dbLookup db m = some u)
    (hemoji : e = de) :
    (reactDeleteMessage botId de db m u e).1 =
      [Effect.deleteTransport m, Effect.deleteRecord m] := by
  have hg : ¬ (some u = botId ∨ ¬ dbLookup db m = some u ∨ ¬ e = de) := by
    push_neg
    exact ⟨hbot, hauth, hemoji⟩
  simp only [reactDeleteMessage, if_neg hg]

/-- C7 witness: a concrete authorized reaction produces the transport
deletion strictly before the record deletion. -/
theorem c7_delete_order_witness :
    (reactDeleteMessage (some "B".toList) "E".toList
      [("M".toList, "U".toList)] "M".toList "U".toList "E".toList).1 =
      [Effect.deleteTransport "M".toList, Effect.deleteRecord "M".toList] :=
  c7_delete_order (some "B".toList) "E".toList [("M".toList, "U".toList)]
    "M".toList "U".toList "E".toList (by decide) (by decide) (by decide)

/-- C3: while the ready flag is false, both the message listener and the
reaction listener produce no effects at all and leave the database
unchanged. -/
theorem c3_readiness_gate (pfx de : Str) (L : Nat) (tm : Part)
    (botId : Option Str) (reg : List Str) (db : DBMap) (ev : Event) :
    handleEvent false pfx de L tm botId reg db ev = ([], db) := by
  cases ev <;> simp [handleEvent]

/-- C4: for a non-bot message the parse trace is the complete x2iExec trace
followed by the command-routing trace, the latter present only when the
search result is empty; no command effect occurs in the x2iExec part and the
command part consists only of command effects. -/
theorem c4_pipeline_order (results content originId authorId : Str)
    (hOk : Bool) (pfx de : Str) (L : Nat) (tm : Part) (db : DBMap)
    (reg : List Str) :
    (parse false results content originId authorId hOk pfx de L tm db reg).1 =
      (x2iExec results L de tm originId authorId db).1 ++
        (if results = [] then command pfx content reg hOk else []) ∧
    (∀ e ∈ (x2iExec results L de tm originId authorId db).1,
      isCommandEffect e = false) ∧
    (∀ e ∈ command pfx content reg hOk, isCommandEffect e = true) := by
  refine ⟨?_, ?_, ?_⟩
  · by_cases h : results = []
    · subst h
      simp [parse, x2iExec]
    · simp [parse, x2iExec, h]
  · intro e he
    by_cases h : results = []
    · subst h
      simp only [x2iExec, if_pos rfl] at he
      exact absurd he (List.not_mem_nil e)
    · simp only [x2iExec, if_neg h, List.mem_append] at he
      rcases he with he | he
      · exact isCommandEffect_sendReact _ de e he
      · simp only [List.mem_cons, List.not_mem_nil, or_false] at he
        rcases he with rfl | rfl <;> rfl
  · intro e he
    rcases hr : route pfx content with _ | ⟨c, args⟩
    · simp only [command, hr] at he
      exact absurd he (List.not_mem_nil e)
    · simp only [command, hr] at he
      by_cases hm : c ∈ reg
      · simp only [if_pos hm, List.mem_cons, List.not_mem_nil, or_false] at he
        rcases he with rfl | rfl <;> rfl
      · simp only [if_neg hm] at he
        exact absurd he (List.not_mem_nil e)

/-- C4 witness: a send effect of the transformation stage is not a command
effect, and a handler invocation is; the trace decomposition holds at a
concrete message. -/
theorem c4_pipeline_order_witness :
    isCommandEffect (Effect.send (Part.text "ipa".toList)) = false ∧
    isCommandEffect (Effect.invokeCommand "c".toList [[]]) = true ∧
    (parse false "ipa".toList "!c".toList "O".toList "A".toList true
      "!".toList "E".toList 9 Part.embedded [] ["c".toList]).1 =
      (x2iExec "ipa".toList 9 "E".toList Part.embedded
        "O".toList "A".toList []).1 ++ [] := by
  refine ⟨?_, ?_, ?_⟩
  · exact (c4_pipeline_order "ipa".toList "!c".toList "O".toList "A".toList
      true "!".toList "E".toList 9 Part.embedded [] ["c".toList]).2.1
      (Effect.send (Part.text "ipa".toList)) (by decide)
  · exact (c4_pipeline_order [] "!c".toList "O".toList "A".toList
      true "!".toList "E".toList 9 Part.embedded [] ["c".toList]).2.2
      (Effect.invokeCommand "c".toList [[]]) (by decide)
  · exact ((c4_pipeline_order "ipa".toList "!c".toList "O".toList "A".toList
      true "!".toList "E".toList 9 Part.embedded [] ["c".toList]).1).trans
      (by decide)

/-- C5: content not starting with the literal prefix routes to nothing;
content starting with it whose captured non-whitespace token is unregistered
routes to nothing, with no reply and no logged command error; a registered
token invokes exactly that handler once with the argument text split on
single spaces; concretely, prefix bang with input bang greet alice bob
invokes handler greet with tokens alice and bob. -/
theorem c5_command_routing (pfx content : Str) (reg : List Str) (hOk : Bool) :
    (pfx.isPrefixOf content = false → command pfx content reg hOk = []) ∧
    (pfx.isPrefixOf content = true → cmdTokenOf pfx content ∉ reg →
      command pfx content reg hOk = []) ∧
    (pfx.isPrefixOf content = true → cmdTokenOf pfx content ∈ reg →
      command pfx content reg hOk =
        [Effect.invokeCommand (cmdTokenOf pfx content)
          (splitOnSpace (argTextOf pfx content)),
         Effect.logCommand (cmdTokenOf pfx content) hOk]) ∧
    command "!".toList "!greet alice bob".toList ("greet".toList :: reg) hOk =
      [Effect.invokeCommand "greet".toList ["alice".toList, "bob".toList],
       Effect.logCommand "greet".toList hOk] := by
  refine ⟨?_, ?_, ?_, ?_⟩
  · intro h
    simp [command, route, h]
  · intro h hnot
    simp [command, route, h, hnot]
  · intro h hmem
    simp [command, route, h, hmem]
  · have hroute : route "!".toList "!greet alice bob".toList =
        some ("greet".toList, "alice bob".toList) := by decide
    simp only [command, hroute, List.mem_cons, true_or, if_pos]
    rw [show splitOnSpace "alice bob".toList =
      ["alice".toList, "bob".toList] from by decide]

/-- C5 witness: concrete routing outcomes for a non-prefixed message, an
unregistered command, and a registered command. -/
theorem c5_command_routing_witness :
    command "!".toList "hello".toList ["greet".toList] true = [] ∧
    command "!".toList "!nope x".toList ["greet".toList] true = [] ∧
    command "!".toList "!greet alice bob".toList ["greet".toList] true =
      [Effect.invokeCommand "greet".toList ["alice".toList, "bob".toList],
       Effect.logCommand "greet".toList true] := by
  refine ⟨?_, ?_, ?_⟩
  · exact (c5_command_routing "!".toList "hello".toList ["greet".toList]
      true).1 (by decide)
  · exact (c5_command_routing "!".toList "!nope x".toList ["greet".toList]
      true).2.1 (by decide) (by decide)
  · exact ((c5_command_routing "!".toList "!greet alice bob".toList
      ["greet".toList] true).2.2.1 (by decide) (by decide)).trans (by decide)

/-- C6: a connection-reset error produces only a warning log, with no error
record and no process exit; every other error handled by the error listener
writes exactly one error record and the trace is the error log, the record
write, then the exit with status one. -/
theorem c6_crash_handling (err : Option Str) :
    (isConnReset err = true →
      onErrorEvent err = [Effect.logWarn] ∧
      countErrorRecords (onErrorEvent err) = 0 ∧
      (∀ c, Effect.exitProcess c ∉ onErrorEvent err)) ∧
    (isConnReset err = false →
      countErrorRecords (onErrorEvent err) = 1 ∧
      onErrorEvent err =
        [Effect.logError, Effect.addErrorRecord, Effect.exitProcess 1]) := by
  cases err with
  | none =>
    refine ⟨fun h => by simp [isConnReset] at h, fun _ => ?_⟩
    exact ⟨by decide, rfl⟩
  | some m =>
    by_cases hc : (!m.isEmpty && strIncludes econnresetStr m) = true
    · refine ⟨fun _ => ?_, fun h => ?_⟩
      · refine ⟨by simp [onErrorEvent, hc], ?_, ?_⟩
        · simp [onErrorEvent, hc, countErrorRecords]
        · intro c
          simp [onErrorEvent, hc]
      · rw [show isConnReset (some m) =
          (!m.isEmpty && strIncludes econnresetStr m) from rfl, hc] at h
        exact absurd h (by simp)
    · refine ⟨fun h => ?_, fun _ => ?_⟩
      · rw [show isConnReset (some m) =
          (!m.isEmpty && strIncludes econnresetStr m) from rfl] at h
        exact absurd h hc
      · have : onErrorEvent (some m) = panicResponsibly := by
          simp only [onErrorEvent, if_neg hc]
        rw [this]
        exact ⟨by decide, rfl⟩

/-- C6 witness: a concrete connection-reset message is only warned about,
and a concrete other fault writes exactly one error record. -/
theorem c6_crash_handling_witness :
    onErrorEvent (some "read ECONNRESET".toList) = [Effect.logWarn] ∧
    countErrorRecords (onErrorEvent none) = 1 :=
  ⟨((c6_crash_handling (some "read ECONNRESET".toList)).1 (by decide)).1,
   ((c6_crash_handling none).2 (by decide)).1⟩

/-- C9: a message from a bot author produces no effects at all and leaves
the database unchanged: no transformation, no send, no record, no command. -/
theorem c9_bot_author (results content originId authorId : Str) (hOk : Bool)
    (pfx de : Str) (L : Nat) (tm : Part) (db : DBMap) (reg : List Str) :
    parse true results content originId authorId hOk pfx de L tm db reg =
      ([], db) := by
  simp [parse]

/-- C10: a registered command with no argument text after the bare command
token is invoked with exactly one argument token, the empty string, because
splitting the empty remainder yields the one-element list holding the empty
string. -/
theorem c10_empty_args (pfx cmd : Str) (reg : List Str) (hOk : Bool)
    (_hne : cmd ≠ []) (hword : ∀ c ∈ cmd, jsNonSpace c = true)
    (hmem : cmd ∈ reg) :
    command pfx (pfx ++ cmd) reg hOk =
      [Effect.invokeCommand cmd [[]], Effect.logCommand cmd hOk] := by
  have htok : cmdTokenOf pfx (pfx ++ cmd) = cmd := by
    simp only [cmdTokenOf, List.drop_left]
    exact List.takeWhile_eq_self_iff.mpr hword
  have hargs : argTextOf pfx (pfx ++ cmd) = [] := by
    simp only [argTextOf, List.drop_left]
    rw [List.dropWhile_eq_nil_iff.mpr hword]
    rfl
  simp only [command, route, isPrefixOf_append_self, if_pos, htok, hargs]
  simp only [if_pos hmem]
  rfl

/-- C10 witness: the bare command bang greet invokes handler greet with one
empty-string argument token. -/
theorem c10_empty_args_witness :
    command "!".toList ("!".toList ++ "greet".toList) ["greet".toList] true =
      [Effect.invokeCommand "greet".toList [[]],
       Effect.logCommand "greet".toList true] :=
  c10_empty_args "!".toList "greet".toList ["greet".toList] true
    (by decide) (by decide) (by decide)

end ConniebotModel

namespace EmbedFmt

/-- C8 counterexample: for a message with a title and a description the
stripped rendering separates the title line from the description by a single
line break, not a blank line, so the output differs from the rendering the
claim describes. -/
theorem c8_strip_counterexample :
    output false ⟨some "T".toList, some "D".toList, some []⟩ true ≠
      Sent.plain (stripClaimed
        ⟨some "T".toList, some "D".toList, some []⟩ true) := by
  decide

/-- C8 amended: with the flag on the structured message passes through
unchanged; with the flag off it is degraded to the bold title terminated by
a line break when present, then the description terminated by a line break
when present, then one further line break, then the field bodies, each
optionally preceded by a bold header line, joined by blank lines. -/
theorem c8_strip_amended (active : Bool) (m : EmbedMsg)
    (headersImportant : Bool) :
    output active m headersImportant =
      if active then Sent.embed m
      else Sent.plain (stripAmended m headersImportant) := by
  cases active with
  | true => rfl
  | false =>
    simp only [output, if_neg (by simp : ¬ (false = true)), if_false]
    have hbody : handleBody m headersImportant =
        List.intercalate nl2 ((jsFields m).map
          fun f => (if headersImportant then bold f.1 ++ nl else []) ++ f.2) := by
      simp only [handleBody]
      rw [foldl_append_singleton
        (fun f => (if headersImportant then bold f.1 ++ nl else []) ++ f.2)
        (jsFields m) []]
      rfl
    simp only [strip, stripAmended, hbody]

end EmbedFmt
